import Mathlib

/-
Verification development for the DataVolt CSV ingestion engine
(`src/csv_loader.rs`).  The Rust code is shallowly embedded: polars
DataFrames become lists of typed columns, machine floats used by the
planner become exact rationals, the filesystem becomes an explicit list
of existing paths, and the live memory probe becomes an explicit
`totalMemory` parameter (the spec's MemoryProbe injection).
-/

namespace DataVolt

/-- Primitive column types of the engine (polars dtypes used by the code). -/
inductive DType where
  | int8
  | int16
  | int32
  | int64
  | uint8
  | uint16
  | uint32
  | uint64
  | float32
  | float64
  | string
  | categorical
deriving DecidableEq, Repr

/-- A cell value.  Integer cells carry unbounded integers; the i64 range
restriction of the source is imposed as a hypothesis where relevant.
Dictionary codes of categorical columns are not modelled: a categorical
column keeps its logical string values, as the code's cast preserves them. -/
inductive Value where
  | int (i : ℤ)
  | str (s : String)
  | null
deriving DecidableEq, Repr

/-- A named column: uniform dtype tag plus the cell values. -/
structure Column where
  name : String
  dtype : DType
  values : List Value
deriving DecidableEq, Repr

/-- A DataFrame is an ordered list of named columns. -/
abbrev DataFrame := List Column

/-- Error type of `csv_loader.rs` (`LoaderError`). -/
inductive LoaderError where
  | ioError (msg : String)
  | processingError (msg : String)
  | invalidPath (path : String)
deriving DecidableEq, Repr

/-- `LoaderConfig`: `reserved_ram_gb` and `num_workers`.  The reserved
memory is a rational standing for the source's f64. -/
structure LoaderConfig where
  reserved_ram_gb : ℚ
  num_workers : ℕ
deriving DecidableEq, Repr

/-- `impl Default for LoaderConfig`: reserve 2GB, 7 workers. -/
def LoaderConfig.default : LoaderConfig :=
  { reserved_ram_gb := 2, num_workers := 7 }

/-- The `CSVLoader` struct: a validated path plus the configuration. -/
structure CSVLoader where
  file_path : String
  config : LoaderConfig
deriving DecidableEq, Repr

/-- `CSVLoader::new`: the filesystem is modelled as the list of existing
paths.  The constructor fails with `InvalidPath` exactly when the path
does not exist, otherwise stores the path and the supplied configuration
(defaulting when none is given).  It performs no parsing or load work. -/
def CSVLoader.new (existing : List String) (file_path : String)
    (config : Option LoaderConfig) : Except LoaderError CSVLoader :=
  if file_path ∈ existing then
    .ok { file_path := file_path, config := config.getD LoaderConfig.default }
  else
    .error (.invalidPath file_path)

/-- Truncation of a nonnegative rational to a natural number, the model of
Rust's saturating `as usize` on an f64 (negative values clamp to 0). -/
def ratToUsize (q : ℚ) : ℕ :=
  if q ≤ 0 then 0 else q.floor.toNat

/-- `CSVLoader::calculate_chunk_size`, with the `sysinfo` total-memory
reading passed in as `totalMemory` (raw units, divided by 1024^3 as in the
source) and f64 arithmetic modelled exactly over ℚ.  Returns 0 for the
whole-file plan, otherwise a chunk row count clamped up to 1000. -/
def calculate_chunk_size (totalMemory : ℕ) (config : LoaderConfig)
    (file_size : ℕ) : ℕ :=
  let total_ram_gb : ℚ := (totalMemory : ℚ) / (1024 * 1024 * 1024)
  let available_ram_gb : ℚ := total_ram_gb - config.reserved_ram_gb
  let estimated_df_size_gb : ℚ := ((file_size : ℚ) * 1.5) / (1024 * 1024 * 1024)
  if estimated_df_size_gb < available_ram_gb then 0
  else
    max (ratToUsize ((available_ram_gb * 0.25 * 1024 * 1024) / estimated_df_size_gb)) 1000

/-- Lower bound of the representable range of an integer dtype. -/
def intLo : DType → ℤ
  | .int8 => -128
  | .int16 => -32768
  | .int32 => -2147483648
  | .int64 => -9223372036854775808
  | _ => 0

/-- Upper bound of the representable range of an integer dtype
(0 for non-integer dtypes, which are never cast to). -/
def intHi : DType → ℤ
  | .int8 => 127
  | .int16 => 32767
  | .int32 => 2147483647
  | .int64 => 9223372036854775807
  | .uint8 => 255
  | .uint16 => 65535
  | .uint32 => 4294967295
  | .uint64 => 18446744073709551615
  | _ => 0

/-- Storage width in bits of an integer dtype (0 for non-integer dtypes). -/
def bitWidth : DType → ℕ
  | .int8 => 8
  | .uint8 => 8
  | .int16 => 16
  | .uint16 => 16
  | .int32 => 32
  | .uint32 => 32
  | .int64 => 64
  | .uint64 => 64
  | _ => 0

/-- Whether a dtype is one of the eight integer dtypes. -/
def isIntDType (t : DType) : Bool :=
  match t with
  | .int8 | .int16 | .int32 | .int64 | .uint8 | .uint16 | .uint32 | .uint64 => true
  | _ => false

/-- Whether a dtype is an unsigned integer dtype. -/
def isUnsigned (t : DType) : Bool :=
  match t with
  | .uint8 | .uint16 | .uint32 | .uint64 => true
  | _ => false

/-- The integer-width ladder of `optimize_chunk`'s Int64 arm: unsigned
8/16/32/64 when `min >= 0`, else signed 8/16/32/64, by the tightest bound. -/
def chooseIntType (mn mx : ℤ) : DType :=
  if 0 ≤ mn then
    if mx ≤ 255 then .uint8
    else if mx ≤ 65535 then .uint16
    else if mx ≤ 4294967295 then .uint32
    else .uint64
  else
    if -128 ≤ mn ∧ mx ≤ 127 then .int8
    else if -32768 ≤ mn ∧ mx ≤ 32767 then .int16
    else if -2147483648 ≤ mn ∧ mx ≤ 2147483647 then .int32
    else .int64

/-- The integer payload of a cell, if any. -/
def Value.intVal : Value → Option ℤ
  | .int i => some i
  | _ => none

/-- The non-null integer values of a column. -/
def intVals (vs : List Value) : List ℤ :=
  vs.filterMap Value.intVal

def i64Max : ℤ := 9223372036854775807

def i64Min : ℤ := -9223372036854775808

/-- `column.min::<i64>().unwrap_or(i64::MAX)`: minimum of the non-null
values, defaulting to `i64::MAX` when there are none. -/
def colMin (vs : List Value) : ℤ :=
  match intVals vs with
  | [] => i64Max
  | x :: xs => xs.foldl min x

/-- `column.max::<i64>().unwrap_or(i64::MIN)`. -/
def colMax (vs : List Value) : ℤ :=
  match intVals vs with
  | [] => i64Min
  | x :: xs => xs.foldl max x

/-- Non-strict polars integer cast: an in-range integer is kept, an
out-of-range one becomes null; non-integer cells pass through. -/
def castIntTo (t : DType) : Value → Value
  | .int i => if intLo t ≤ i ∧ i ≤ intHi t then .int i else .null
  | v => v

/-- `column.n_unique()`: number of distinct values (nulls count once). -/
def nUnique (vs : List Value) : ℕ :=
  vs.dedup.length

/-- One column of `CSVLoader::optimize_chunk`.  A string column becomes
categorical when `n_unique / len < 0.5`; the f64 comparison is exact here
(`2 * n_unique < len` over ℕ), which agrees with the source for every
nonempty column and also leaves an empty column unconverted (the source
compares against NaN there, which is false).  A Float64 column is retagged
Float32 (the 64-to-32-bit rounding itself is not modelled; no claim
depends on it).  An Int64 column is narrowed by the min/max ladder. -/
def optimizeColumn (c : Column) : Column :=
  match c.dtype with
  | .string =>
    if 2 * nUnique c.values < c.values.length then
      { c with dtype := .categorical }
    else c
  | .float64 => { c with dtype := .float32 }
  | .int64 =>
    let t := chooseIntType (colMin c.values) (colMax c.values)
    { c with dtype := t, values := c.values.map (castIntTo t) }
  | _ => c

/-- `CSVLoader::optimize_chunk`: every column is rewritten in place. -/
def optimize_chunk (df : DataFrame) : DataFrame :=
  df.map optimizeColumn

/-- A CSV file: the header names and the raw fields of each data row.
A row is malformed when its field count differs from the header's. -/
structure CsvFile where
  header : List String
  rows : List (List String)
deriving DecidableEq, Repr

/-- Whether a raw field is an integer literal (optional minus, digits). -/
def isIntLit (s : String) : Bool :=
  match s.data with
  | [] => false
  | '-' :: rest => !rest.isEmpty && rest.all Char.isDigit
  | cs => cs.all Char.isDigit

def digitsToNat (cs : List Char) : ℕ :=
  cs.foldl (fun acc c => acc * 10 + (c.toNat - 48)) 0

def parseIntLit (s : String) : ℤ :=
  match s.data with
  | '-' :: rest => -(digitsToNat rest : ℤ)
  | cs => (digitsToNat cs : ℤ)

/-- Build one column from the raw rows: polars-style inference assigns
Int64 when every field of the column is an integer literal, else String. -/
def buildCol (rows : List (List String)) (j : ℕ) (colName : String) : Column :=
  let fields := rows.map (fun r => r.getD j "")
  if fields.all isIntLit then
    { name := colName, dtype := .int64, values := fields.map (fun s => .int (parseIntLit s)) }
  else
    { name := colName, dtype := .string, values := fields.map .str }

/-- All columns, in header order. -/
def buildDF (hdr : List String) (rows : List (List String)) : DataFrame :=
  hdr.enum.map (fun p => buildCol rows p.1 p.2)

/-- Parse a batch of raw rows against the header, with polars' ragged-row
behaviour: a row with more fields than the header is malformed and fails
the batch (fail-fast CSV parse), while a row with fewer fields is
accepted — `buildCol` pads its missing fields with the empty field, the
model of polars null-filling missing trailing fields. -/
def parseChunk (hdr : List String) (rows : List (List String)) :
    Except LoaderError DataFrame :=
  if rows.all (fun r => r.length ≤ hdr.length) then .ok (buildDF hdr rows)
  else .error (.processingError "found more fields than defined in csv schema")

/-- Number of chunks of size `C` covering `total` rows (`0 < C`). -/
def numChunks (C total : ℕ) : ℕ :=
  (total + C - 1) / C

/-- The `i`-th chunk of `rows` at chunk size `C`: rows `[i*C, i*C + C)`. -/
def chunkAt {α : Type} (C : ℕ) (rows : List α) (i : ℕ) : List α :=
  (rows.drop (i * C)).take C

/-- The ordered sequence of partitions the chunked path works through. -/
def chunkList {α : Type} (C : ℕ) (rows : List α) : List (List α) :=
  (List.range (numChunks C rows.length)).map (chunkAt C rows)

/-- The end-of-data sentinel the source signals when `reader.nth` runs dry. -/
def noMoreChunksMsg : String := "No more chunks"

/-- The body of the source's per-index closure: take the `i`-th batch of
`C` rows; an exhausted index yields the sentinel error, otherwise the
batch is parsed and type-optimized. -/
def chunkStep (hdr : List String) (C : ℕ) (rows : List (List String))
    (i : ℕ) : Except LoaderError DataFrame :=
  let chunk := chunkAt C rows i
  if chunk.isEmpty then .error (.processingError noMoreChunksMsg)
  else Except.map optimize_chunk (parseChunk hdr chunk)

/-- The source's `take_while` predicate: stop only at the sentinel. -/
def notSentinel : Except LoaderError DataFrame → Bool
  | .error (.processingError m) => !(m == noMoreChunksMsg)
  | _ => true

/-- `collect::<Result<Vec<_>, _>>`: first error wins, else all values. -/
def sequenceE {ε α : Type} : List (Except ε α) → Except ε (List α)
  | [] => .ok []
  | r :: rs =>
    match r with
    | .error e => .error e
    | .ok a =>
      match sequenceE rs with
      | .error e => .error e
      | .ok as => .ok (a :: as)

/-- Schema of a frame: names and dtypes in order. -/
def schemaOf (df : DataFrame) : List (String × DType) :=
  df.map (fun c => (c.name, c.dtype))

/-- Vertical stack of two frames with identical schema. -/
def vstack (d1 d2 : DataFrame) : DataFrame :=
  List.zipWith (fun c1 c2 => { c1 with values := c1.values ++ c2.values }) d1 d2

/-- polars `concat(chunks, true)`: requires identical schemas across all
fragments (no dtype reconciliation is performed) and stacks them in order;
mismatched dtypes fail, as does an empty fragment list. -/
def concatDF : List DataFrame → Except LoaderError DataFrame
  | [] => .error (.processingError "cannot concat empty list")
  | d :: ds =>
    if ds.all (fun d2 => schemaOf d2 = schemaOf d) then .ok (ds.foldl vstack d)
    else .error (.processingError "cannot vstack: data types do not match")

/-- The chunked arm of `load_data`: the source maps the closure over the
unbounded index range `(0..)` and `take_while`s until the sentinel; since
every index at or beyond `rows.length` is exhausted once `0 < C`, the
range `0 .. rows.length` already contains the sentinel cut, so the prefix
below is the exact sequence the source collects. -/
def load_chunked (hdr : List String) (rows : List (List String)) (C : ℕ) :
    Except LoaderError DataFrame :=
  match sequenceE (((List.range (rows.length + 1)).map (chunkStep hdr C rows)).takeWhile notSentinel) with
  | .error e => .error e
  | .ok dfs => concatDF dfs

/-- `CSVLoader::load_data` below the plan decision: chunk size 0 parses
and optimizes the whole file at once, a positive chunk size runs the
partitioned path. -/
def load_with_chunk (C : ℕ) (f : CsvFile) : Except LoaderError DataFrame :=
  if C = 0 then
    match parseChunk f.header f.rows with
    | .error e => .error e
    | .ok df => .ok (optimize_chunk df)
  else load_chunked f.header f.rows C

/-- Byte size of the file: header line plus data lines, one newline each. -/
def fileSize (f : CsvFile) : ℕ :=
  (String.intercalate "," f.header).length + 1 +
    (f.rows.map (fun r => (String.intercalate "," r).length + 1)).sum

/-- `CSVLoader::load_data`: plan the chunk size from the live memory
reading, the configuration and the file size, then load accordingly. -/
def load_data (totalMemory : ℕ) (config : LoaderConfig) (f : CsvFile) :
    Except LoaderError DataFrame :=
  load_with_chunk (calculate_chunk_size totalMemory config (fileSize f)) f

/-- Whether a cell may appear in an Int64 column: null, or an integer in
the i64 range. -/
def isInt64Cell : Value → Bool
  | .null => true
  | .int i => decide (i64Min ≤ i ∧ i ≤ i64Max)
  | _ => false

/-- A string column of 100 values with 49 distinct ones (48 numerals and
one repeated filler): unique fraction 0.49. -/
def col49of100 : List Value :=
  (List.range 48).map (fun i => Value.str (Nat.repr i)) ++
    List.replicate 52 (Value.str "dup")

/-- A one-column integer CSV whose first two rows fit u8 while the third
needs u16: chunks of size 2 narrow to different widths. -/
def c1File : CsvFile := ⟨["a"], [["1"], ["1"], ["300"]]⟩

/-- A two-column CSV whose second row is malformed: three fields under a
two-field header (polars rejects rows with extra fields). -/
def malformedFile : CsvFile := ⟨["a", "b"], [["1", "2"], ["3", "4", "5"]]⟩

lemma foldl_min_le_init (xs : List ℤ) (x : ℤ) : xs.foldl min x ≤ x := by
  induction xs generalizing x with
  | nil => simp
  | cons y ys ih =>
    rw [List.foldl_cons]
    exact le_trans (ih (min x y)) (min_le_left x y)

lemma foldl_min_le {a x : ℤ} {xs : List ℤ} (h : a ∈ x :: xs) : xs.foldl min x ≤ a := by
  induction xs generalizing x with
  | nil =>
    simp only [List.mem_singleton] at h
    simp [h]
  | cons y ys ih =>
    rw [List.foldl_cons]
    rcases List.mem_cons.mp h with h1 | h2
    · exact le_trans (foldl_min_le_init ys (min x y)) (h1 ▸ min_le_left x y)
    · rcases List.mem_cons.mp h2 with h3 | h4
      · exact le_trans (foldl_min_le_init ys (min x y)) (h3 ▸ min_le_right x y)
      · exact ih (List.mem_cons_of_mem _ h4)

lemma foldl_min_mem (xs : List ℤ) (x : ℤ) : xs.foldl min x ∈ x :: xs := by
  induction xs generalizing x with
  | nil => simp
  | cons y ys ih =>
    rw [List.foldl_cons]
    rcases List.mem_cons.mp (ih (min x y)) with h | h
    · rcases min_choice x y with hc | hc
      · exact List.mem_cons.mpr (Or.inl (h.trans hc))
      · exact List.mem_cons_of_mem _ (List.mem_cons.mpr (Or.inl (h.trans hc)))
    · exact List.mem_cons_of_mem _ (List.mem_cons_of_mem _ h)

lemma le_foldl_max_init (xs : List ℤ) (x : ℤ) : x ≤ xs.foldl max x := by
  induction xs generalizing x with
  | nil => simp
  | cons y ys ih =>
    rw [List.foldl_cons]
    exact le_trans (le_max_left x y) (ih (max x y))

lemma le_foldl_max {a x : ℤ} {xs : List ℤ} (h : a ∈ x :: xs) : a ≤ xs.foldl max x := by
  induction xs generalizing x with
  | nil =>
    simp only [List.mem_singleton] at h
    simp [h]
  | cons y ys ih =>
    rw [List.foldl_cons]
    rcases List.mem_cons.mp h with h1 | h2
    · exact le_trans (h1 ▸ le_max_left x y) (le_foldl_max_init ys (max x y))
    · rcases List.mem_cons.mp h2 with h3 | h4
      · exact le_trans (h3 ▸ le_max_right x y) (le_foldl_max_init ys (max x y))
      · exact ih (List.mem_cons_of_mem _ h4)

lemma foldl_max_mem (xs : List ℤ) (x : ℤ) : xs.foldl max x ∈ x :: xs := by
  induction xs generalizing x with
  | nil => simp
  | cons y ys ih =>
    rw [List.foldl_cons]
    rcases List.mem_cons.mp (ih (max x y)) with h | h
    · rcases max_choice x y with hc | hc
      · exact List.mem_cons.mpr (Or.inl (h.trans hc))
      · exact List.mem_cons_of_mem _ (List.mem_cons.mpr (Or.inl (h.trans hc)))
    · exact List.mem_cons_of_mem _ (List.mem_cons_of_mem _ h)

lemma colMin_le {vs : List Value} {a : ℤ} (h : a ∈ intVals vs) : colMin vs ≤ a := by
  cases hv : intVals vs with
  | nil => rw [hv] at h; exact absurd h (List.not_mem_nil a)
  | cons x xs =>
    rw [hv] at h
    simpa [colMin, hv] using foldl_min_le h

lemma le_colMax {vs : List Value} {a : ℤ} (h : a ∈ intVals vs) : a ≤ colMax vs := by
  cases hv : intVals vs with
  | nil => rw [hv] at h; exact absurd h (List.not_mem_nil a)
  | cons x xs =>
    rw [hv] at h
    simpa [colMax, hv] using le_foldl_max h

lemma colMin_mem_or (vs : List Value) : colMin vs ∈ intVals vs ∨ colMin vs = i64Max := by
  cases hv : intVals vs with
  | nil => right; simp [colMin, hv]
  | cons x xs =>
    left
    have hm := foldl_min_mem xs x
    rw [← hv] at hm
    simpa [colMin, hv] using hm

lemma colMax_mem_or (vs : List Value) : colMax vs ∈ intVals vs ∨ colMax vs = i64Min := by
  cases hv : intVals vs with
  | nil => right; simp [colMax, hv]
  | cons x xs =>
    left
    have hm := foldl_max_mem xs x
    rw [← hv] at hm
    simpa [colMax, hv] using hm

lemma chooseIntType_fits {mn mx : ℤ} (h1 : i64Min ≤ mn) (h2 : mx ≤ i64Max) :
    intLo (chooseIntType mn mx) ≤ mn ∧ mx ≤ intHi (chooseIntType mn mx) := by
  unfold i64Min at h1
  unfold i64Max at h2
  unfold chooseIntType
  split_ifs <;> simp [intLo, intHi] <;> omega

lemma chooseIntType_unsigned {mn : ℤ} (mx : ℤ) (h : 0 ≤ mn) :
    isUnsigned (chooseIntType mn mx) = true := by
  unfold chooseIntType
  split_ifs <;> simp [isUnsigned]

lemma chooseIntType_min_width {mn mx : ℤ} (t : DType) (ht : isIntDType t = true)
    (hlo : intLo t ≤ mn) (hhi : mx ≤ intHi t) :
    bitWidth (chooseIntType mn mx) ≤ bitWidth t := by
  unfold chooseIntType
  cases t <;> simp only [intLo, intHi, bitWidth] at hlo hhi ⊢ <;>
    try exact absurd ht (by decide)
  all_goals split_ifs <;> simp only [bitWidth] <;> omega

lemma castIntTo_int {t : DType} {i : ℤ} (h1 : intLo t ≤ i) (h2 : i ≤ intHi t) :
    castIntTo t (.int i) = .int i := by
  simp [castIntTo, h1, h2]

/-- Claim C2: on a 64-bit signed integer column, `optimize_chunk` computes
the column's min and max and rewrites the column to
`chooseIntType min max`; that type is the smallest signed or unsigned
width representing `[min, max]` (unsigned preferred when `min ≥ 0`), it
bounds every value of the column, the narrowing cast keeps every value
intact, and widening the narrowed value back to Int64 round-trips
exactly. -/
theorem int64_narrow_roundtrip (colName : String) (vs : List Value)
    (hshape : vs.all isInt64Cell = true) :
    optimizeColumn ⟨colName, .int64, vs⟩ =
      ⟨colName, chooseIntType (colMin vs) (colMax vs),
        vs.map (castIntTo (chooseIntType (colMin vs) (colMax vs)))⟩ ∧
    (∀ v ∈ vs, castIntTo (chooseIntType (colMin vs) (colMax vs)) v = v) ∧
    (∀ v ∈ vs, castIntTo .int64 (castIntTo (chooseIntType (colMin vs) (colMax vs)) v) = v) ∧
    intLo (chooseIntType (colMin vs) (colMax vs)) ≤ colMin vs ∧
    colMax vs ≤ intHi (chooseIntType (colMin vs) (colMax vs)) ∧
    (0 ≤ colMin vs → isUnsigned (chooseIntType (colMin vs) (colMax vs)) = true) ∧
    (∀ t, isIntDType t = true → intLo t ≤ colMin vs → colMax vs ≤ intHi t →
      bitWidth (chooseIntType (colMin vs) (colMax vs)) ≤ bitWidth t) := by
  have hcell : ∀ v ∈ vs, v = Value.null ∨
      ∃ i : ℤ, v = Value.int i ∧ i64Min ≤ i ∧ i ≤ i64Max := by
    intro v hv
    have hb := List.all_eq_true.mp hshape v hv
    cases v with
    | null => exact Or.inl rfl
    | int i => exact Or.inr ⟨i, rfl, of_decide_eq_true (by simpa [isInt64Cell] using hb)⟩
    | str s => simp [isInt64Cell] at hb
  have hivb : ∀ a ∈ intVals vs, i64Min ≤ a ∧ a ≤ i64Max := by
    intro a ha
    rcases List.mem_filterMap.mp ha with ⟨v, hv, he⟩
    rcases hcell v hv with h | ⟨i, rfl, hb⟩
    · subst h; simp [Value.intVal] at he
    · simp only [Value.intVal, Option.some.injEq] at he
      exact he ▸ hb
  have hmnb : i64Min ≤ colMin vs := by
    rcases colMin_mem_or vs with h | h
    · exact (hivb _ h).1
    · rw [h]; unfold i64Min i64Max; omega
  have hmxb : colMax vs ≤ i64Max := by
    rcases colMax_mem_or vs with h | h
    · exact (hivb _ h).2
    · rw [h]; unfold i64Min i64Max; omega
  have hfits := chooseIntType_fits hmnb hmxb
  have hkeep : ∀ v ∈ vs, castIntTo (chooseIntType (colMin vs) (colMax vs)) v = v := by
    intro v hv
    rcases hcell v hv with h | ⟨i, rfl, hb⟩
    · subst h; rfl
    · have hmem : i ∈ intVals vs := List.mem_filterMap.mpr ⟨Value.int i, hv, rfl⟩
      exact castIntTo_int (le_trans hfits.1 (colMin_le hmem))
        (le_trans (le_colMax hmem) hfits.2)
  refine ⟨rfl, hkeep, ?_, hfits.1, hfits.2,
    fun h => chooseIntType_unsigned _ h,
    fun t h1 h2 h3 => chooseIntType_min_width t h1 h2 h3⟩
  intro v hv
  rw [hkeep v hv]
  rcases hcell v hv with h | ⟨i, rfl, hb⟩
  · subst h; rfl
  · exact castIntTo_int (by simpa [intLo] using hb.1) (by simpa [intHi] using hb.2)

/-- Witness for C2 at the column `[1, null, 300]`. -/
theorem int64_narrow_roundtrip_witness :
    castIntTo DType.int64
      (castIntTo (chooseIntType (colMin [Value.int 1, Value.null, Value.int 300])
          (colMax [Value.int 1, Value.null, Value.int 300]))
        (Value.int 300)) = Value.int 300 :=
  (int64_narrow_roundtrip "v" [Value.int 1, Value.null, Value.int 300]
    (by decide)).2.2.1 (Value.int 300) (by decide)

/-- Claim C9: an Int64 column with no non-null values has min defaulted to
`i64::MAX` and max defaulted to `i64::MIN`, so the `min ≥ 0`, `max ≤ 255`
branch fires and the column is narrowed to UInt8. -/
theorem empty_int64_narrows_to_uint8 (colName : String) (vs : List Value)
    (h : intVals vs = []) :
    chooseIntType (colMin vs) (colMax vs) = .uint8 ∧
    optimizeColumn ⟨colName, .int64, vs⟩ =
      ⟨colName, .uint8, vs.map (castIntTo .uint8)⟩ := by
  have h1 : colMin vs = i64Max := by simp [colMin, h]
  have h2 : colMax vs = i64Min := by simp [colMax, h]
  have hc : chooseIntType (colMin vs) (colMax vs) = .uint8 := by
    rw [h1, h2]
    unfold chooseIntType i64Max i64Min
    norm_num
  refine ⟨hc, ?_⟩
  show (⟨colName, chooseIntType (colMin vs) (colMax vs),
    vs.map (castIntTo (chooseIntType (colMin vs) (colMax vs)))⟩ : Column) = _
  rw [hc]

/-- Witness for C9 at the all-null column `[null, null]`. -/
theorem empty_int64_narrows_to_uint8_witness :
    optimizeColumn ⟨"x", DType.int64, [Value.null, Value.null]⟩ =
      ⟨"x", DType.uint8, [Value.null, Value.null]⟩ :=
  ((empty_int64_narrows_to_uint8 "x" [Value.null, Value.null] (by decide)).2).trans
    (by decide)

lemma two_mul_lt_iff_half (u len : ℕ) (h : 0 < len) :
    (u : ℚ) / (len : ℚ) < 1 / 2 ↔ 2 * u < len := by
  rw [div_lt_div_iff₀ (by exact_mod_cast h) (by norm_num : (0 : ℚ) < 2)]
  constructor
  · intro hh
    have hq : (2 * u : ℚ) < (len : ℚ) := by linarith
    exact_mod_cast hq
  · intro hh
    have hq : (2 * u : ℚ) < (len : ℚ) := by exact_mod_cast hh
    linarith

set_option maxRecDepth 8192 in
/-- Claim C3: a string column is rewritten to categorical exactly when the
fraction of distinct values is strictly below one half; values are kept
either way.  In particular a column with unique fraction exactly 0.5 stays
a plain string column, and one with fraction 0.49 converts. -/
theorem string_categorical_threshold :
    (∀ (colName : String) (vs : List Value), 0 < vs.length →
      (((optimizeColumn ⟨colName, .string, vs⟩).dtype = .categorical) ↔
        (nUnique vs : ℚ) / (vs.length : ℚ) < 1 / 2) ∧
      (optimizeColumn ⟨colName, .string, vs⟩).values = vs ∧
      ((optimizeColumn ⟨colName, .string, vs⟩).dtype = .categorical ∨
        (optimizeColumn ⟨colName, .string, vs⟩).dtype = .string)) ∧
    (optimizeColumn ⟨"c", .string,
      [.str "a", .str "a", .str "b", .str "b"]⟩).dtype = .string ∧
    (optimizeColumn ⟨"c", .string, col49of100⟩).dtype = .categorical := by
  refine ⟨?_, by decide, by decide⟩
  intro colName vs h
  by_cases hc : 2 * nUnique vs < vs.length
  · have he : optimizeColumn ⟨colName, .string, vs⟩ = ⟨colName, .categorical, vs⟩ := by
      simp [optimizeColumn, hc]
    rw [he, two_mul_lt_iff_half _ _ h]
    exact ⟨by simp [hc], rfl, Or.inl rfl⟩
  · have he : optimizeColumn ⟨colName, .string, vs⟩ = ⟨colName, .string, vs⟩ := by
      simp [optimizeColumn, hc]
    rw [he, two_mul_lt_iff_half _ _ h]
    exact ⟨by simp [hc], rfl, Or.inr rfl⟩

/-- Witness for C3 at a 4-row string column with 3 distinct values
(fraction 0.75, no conversion). -/
theorem string_categorical_threshold_witness :
    ((optimizeColumn ⟨"s", .string,
        [Value.str "a", Value.str "b", Value.str "c", Value.str "a"]⟩).dtype =
          .categorical ↔
      ((nUnique [Value.str "a", Value.str "b", Value.str "c", Value.str "a"] : ℚ) /
        (([Value.str "a", Value.str "b", Value.str "c", Value.str "a"] :
          List Value).length : ℚ) < 1 / 2)) :=
  (string_categorical_threshold.1 "s"
    [Value.str "a", Value.str "b", Value.str "c", Value.str "a"] (by decide)).1

/-- Claim C4: whenever the estimated table size (1.5 times the file size,
in GB) is below available memory (total RAM minus the reserved GB), the
planner chooses the whole-file plan, chunk size 0. -/
theorem whole_file_plan_when_fits (totalMemory : ℕ) (config : LoaderConfig)
    (file_size : ℕ)
    (h : ((file_size : ℚ) * 1.5) / (1024 * 1024 * 1024) <
      (totalMemory : ℚ) / (1024 * 1024 * 1024) - config.reserved_ram_gb) :
    calculate_chunk_size totalMemory config file_size = 0 := by
  simp only [calculate_chunk_size]
  split_ifs
  rfl

/-- Witness for C4: an 8GiB machine, default config, a 1MiB file. -/
theorem whole_file_plan_when_fits_witness :
    calculate_chunk_size 8589934592 LoaderConfig.default 1048576 = 0 :=
  whole_file_plan_when_fits 8589934592 LoaderConfig.default 1048576
    (by norm_num [LoaderConfig.default])

/-- Claim C5 counterexample: the planner does return a value below
`min_chunk_rows` — a small file on an 8GiB machine yields 0, the
whole-file sentinel, and 0 < 1000. -/
theorem chunk_size_below_min_counterexample :
    calculate_chunk_size 8589934592 LoaderConfig.default 1048576 = 0 ∧
      (0 : ℕ) < 1000 := by
  refine ⟨?_, by norm_num⟩
  simp only [calculate_chunk_size]
  split_ifs with hcond
  · rfl
  · exact absurd (by norm_num [LoaderConfig.default]) hcond

/-- Claim C5 as amended: every chunk size the planner computes is either 0
(the whole-file sentinel, not a partition size) or at least the 1000-row
floor; the partitioned branch clamps upward and never yields a positive
value below 1000. -/
theorem chunk_size_clamped (totalMemory : ℕ) (config : LoaderConfig)
    (file_size : ℕ) :
    calculate_chunk_size totalMemory config file_size = 0 ∨
      1000 ≤ calculate_chunk_size totalMemory config file_size := by
  simp only [calculate_chunk_size]
  split_ifs with hc
  · exact Or.inl rfl
  · exact Or.inr (le_max_right _ _)

/-- Claim C8: constructing the loader fails with `InvalidPath` exactly
when the configured path does not exist, and on success stores the path
and the configuration unchanged, before any load work. -/
theorem new_validates_path (existing : List String) (p : String)
    (config : Option LoaderConfig) :
    ((∃ e, CSVLoader.new existing p config = .error e) ↔ p ∉ existing) ∧
    (∀ e, CSVLoader.new existing p config = .error e → e = .invalidPath p) ∧
    (p ∈ existing →
      CSVLoader.new existing p config =
        .ok ⟨p, config.getD LoaderConfig.default⟩) := by
  by_cases hp : p ∈ existing
  · refine ⟨?_, ?_, fun _ => by simp [CSVLoader.new, hp]⟩
    · simp [CSVLoader.new, hp]
    · intro e he
      simp [CSVLoader.new, hp] at he
  · refine ⟨?_, ?_, fun hmem => absurd hmem hp⟩
    · simp [CSVLoader.new, hp]
    · intro e he
      simp only [CSVLoader.new, if_neg hp, Except.error.injEq] at he
      exact he.symm

/-- Witness for C8: a path that exists is accepted and stored with the
default configuration. -/
theorem new_validates_path_witness :
    CSVLoader.new ["data.csv"] "data.csv" none =
      .ok ⟨"data.csv", LoaderConfig.default⟩ :=
  (new_validates_path ["data.csv"] "data.csv" none).2.2 (by decide)

/-- Claim C10: `load_data` never reads `num_workers`; two configurations
differing only in the worker count load identically. -/
theorem load_independent_of_workers (totalMemory : ℕ) (reserved : ℚ)
    (w1 w2 : ℕ) (f : CsvFile) :
    load_data totalMemory ⟨reserved, w1⟩ f =
      load_data totalMemory ⟨reserved, w2⟩ f := rfl

lemma lt_numChunks_iff {C : ℕ} (hC : 0 < C) (i n : ℕ) :
    i < numChunks C n ↔ i * C < n := by
  unfold numChunks
  constructor
  · intro h
    have h2 : (i + 1) * C ≤ n + C - 1 := (Nat.le_div_iff_mul_le hC).mp h
    have h3 : (i + 1) * C = i * C + C := by ring
    omega
  · intro h
    have h3 : (i + 1) * C = i * C + C := by ring
    have h2 : (i + 1) * C ≤ n + C - 1 := by omega
    exact (Nat.le_div_iff_mul_le hC).mpr h2

lemma numChunks_le {C : ℕ} (hC : 0 < C) (n : ℕ) : numChunks C n ≤ n := by
  by_contra hlt
  push_neg at hlt
  have h1 := (lt_numChunks_iff hC n n).mp hlt
  have h2 : n * 1 ≤ n * C := Nat.mul_le_mul (le_refl n) hC
  omega

lemma numChunks_zero {C : ℕ} (hC : 0 < C) : numChunks C 0 = 0 := by
  unfold numChunks
  exact Nat.div_eq_of_lt (by omega)

lemma numChunks_succ {C : ℕ} (hC : 0 < C) {n : ℕ} (hn : 0 < n) :
    numChunks C n = numChunks C (n - C) + 1 := by
  unfold numChunks
  rcases Nat.lt_or_ge n C with h | h
  · have e1 : n - C = 0 := by omega
    rw [e1]
    have e2 : n + C - 1 = (n - 1) + C := by omega
    rw [e2, Nat.add_div_right _ hC]
    rw [Nat.div_eq_of_lt (by omega : n - 1 < C), Nat.div_eq_of_lt (by omega : 0 + C - 1 < C)]
  · have e2 : n + C - 1 = (n - 1) + C := by omega
    rw [e2, Nat.add_div_right _ hC]
    have e5 : n - C + C - 1 = n - 1 := by omega
    rw [e5]

lemma chunkAt_eq_nil {α : Type} {C i : ℕ} {rows : List α} (h : rows.length ≤ i * C) :
    chunkAt C rows i = [] := by
  unfold chunkAt
  rw [List.drop_eq_nil_of_le h]
  exact List.take_nil

lemma chunkAt_ne_nil {α : Type} {C i : ℕ} (hC : 0 < C) {rows : List α}
    (h : i * C < rows.length) : chunkAt C rows i ≠ [] := by
  unfold chunkAt
  intro he
  have h1 : ((rows.drop (i * C)).take C).length = 0 := by rw [he]; rfl
  rw [List.length_take, List.length_drop] at h1
  omega

lemma chunkAt_succ {α : Type} (C : ℕ) (rows : List α) (i : ℕ) :
    chunkAt C rows (i + 1) = chunkAt C (rows.drop C) i := by
  unfold chunkAt
  rw [List.drop_drop]
  congr 2
  ring

lemma chunkList_cons {α : Type} {C : ℕ} (hC : 0 < C) {rows : List α} (hne : rows ≠ []) :
    chunkList C rows = rows.take C :: chunkList C (rows.drop C) := by
  unfold chunkList
  have hlen : 0 < rows.length := List.length_pos.mpr hne
  rw [numChunks_succ hC hlen, List.range_succ_eq_map, List.map_cons, List.map_map]
  have hfe : (chunkAt C rows ∘ Nat.succ) = chunkAt C (rows.drop C) :=
    funext (fun i => chunkAt_succ C rows i)
  rw [hfe, List.length_drop]
  have h0 : chunkAt C rows 0 = rows.take C := by
    unfold chunkAt
    simp
  rw [h0]

lemma chunkList_join_aux {α : Type} {C : ℕ} (hC : 0 < C) :
    ∀ (n : ℕ) (rows : List α), rows.length ≤ n → (chunkList C rows).flatten = rows := by
  intro n
  induction n with
  | zero =>
    intro rows h
    have he : rows = [] := List.length_eq_zero.mp (by omega)
    subst he
    simp [chunkList, numChunks_zero hC]
  | succ n ih =>
    intro rows h
    rcases eq_or_ne rows [] with he | hne
    · subst he
      simp [chunkList, numChunks_zero hC]
    · rw [chunkList_cons hC hne, List.flatten_cons,
        ih (rows.drop C) ?_, List.take_append_drop]
      rw [List.length_drop]
      have hlen : 0 < rows.length := List.length_pos.mpr hne
      omega

lemma chunkList_join {α : Type} {C : ℕ} (hC : 0 < C) (rows : List α) :
    (chunkList C rows).flatten = rows :=
  chunkList_join_aux hC rows.length rows le_rfl

lemma takeWhile_cons_pos {β : Type} {p : β → Bool} {a : β} {l : List β}
    (h : p a = true) : (a :: l).takeWhile p = a :: l.takeWhile p := by
  simp [List.takeWhile, h]

lemma takeWhile_cons_neg {β : Type} {p : β → Bool} {a : β} {l : List β}
    (h : p a = false) : (a :: l).takeWhile p = [] := by
  simp [List.takeWhile, h]

lemma takeWhile_map_range {β : Type} :
    ∀ (k : ℕ) (f : ℕ → β) (p : β → Bool) (m : ℕ), k < m →
      (∀ i, i < k → p (f i) = true) → p (f k) = false →
      ((List.range m).map f).takeWhile p = (List.range k).map f := by
  intro k
  induction k with
  | zero =>
    intro f p m hm htrue hfalse
    obtain ⟨m2, rfl⟩ : ∃ m2, m = m2 + 1 := ⟨m - 1, by omega⟩
    rw [List.range_succ_eq_map, List.map_cons, takeWhile_cons_neg hfalse]
    rfl
  | succ k ih =>
    intro f p m hm htrue hfalse
    obtain ⟨m2, rfl⟩ : ∃ m2, m = m2 + 1 := ⟨m - 1, by omega⟩
    rw [List.range_succ_eq_map, List.map_cons, List.map_map,
      takeWhile_cons_pos (htrue 0 (Nat.succ_pos k)),
      ih (f ∘ Nat.succ) p m2 (by omega)
        (fun i hi => htrue (i + 1) (by omega)) hfalse]
    rw [List.range_succ_eq_map, List.map_cons, List.map_map]

lemma map_congr_mem {α β : Type} {f g : α → β} :
    ∀ {l : List α}, (∀ a ∈ l, f a = g a) → l.map f = l.map g := by
  intro l
  induction l with
  | nil => intro h; rfl
  | cons x xs ih =>
    intro h
    rw [List.map_cons, List.map_cons, h x (List.mem_cons_self x xs),
      ih (fun a ha => h a (List.mem_cons_of_mem _ ha))]

lemma parseChunk_cases (hdr : List String) (rows : List (List String)) :
    parseChunk hdr rows = .ok (buildDF hdr rows) ∨
      parseChunk hdr rows =
        .error (.processingError "found more fields than defined in csv schema") := by
  unfold parseChunk
  split_ifs
  · exact Or.inl rfl
  · exact Or.inr rfl

lemma parseChunk_error {hdr : List String} {rows : List (List String)}
    (h : ∃ r ∈ rows, hdr.length < r.length) :
    parseChunk hdr rows =
      .error (.processingError "found more fields than defined in csv schema") := by
  unfold parseChunk
  rw [if_neg]
  intro hall
  rcases h with ⟨r, hr, hgt⟩
  have hle := of_decide_eq_true (List.all_eq_true.mp hall r hr)
  omega

lemma isEmpty_iff_nil {α : Type} (l : List α) : l.isEmpty = true ↔ l = [] := by
  cases l <;> simp [List.isEmpty]

lemma chunkStep_sentinel {hdr : List String} {C : ℕ} {rows : List (List String)}
    {i : ℕ} (h : (chunkAt C rows i).isEmpty = true) :
    chunkStep hdr C rows i = .error (.processingError noMoreChunksMsg) := by
  unfold chunkStep
  rw [if_pos h]

lemma chunkStep_of_nonempty {hdr : List String} {C : ℕ} {rows : List (List String)}
    {i : ℕ} (h : (chunkAt C rows i).isEmpty = false) :
    chunkStep hdr C rows i =
      Except.map optimize_chunk (parseChunk hdr (chunkAt C rows i)) := by
  unfold chunkStep
  rw [if_neg (by simp [h])]

lemma notSentinel_chunkStep {hdr : List String} {C : ℕ} {rows : List (List String)}
    {i : ℕ} (h : (chunkAt C rows i).isEmpty = false) :
    notSentinel (chunkStep hdr C rows i) = true := by
  rw [chunkStep_of_nonempty h]
  rcases parseChunk_cases hdr (chunkAt C rows i) with hp | hp <;> rw [hp] <;> rfl

lemma notSentinel_chunkStep_false {hdr : List String} {C : ℕ}
    {rows : List (List String)} {i : ℕ} (h : (chunkAt C rows i).isEmpty = true) :
    notSentinel (chunkStep hdr C rows i) = false := by
  rw [chunkStep_sentinel h]
  rfl

lemma isEmpty_false_of_ne_nil {α : Type} {l : List α} (h : l ≠ []) :
    l.isEmpty = false := by
  cases he : l.isEmpty
  · rfl
  · exact absurd ((isEmpty_iff_nil l).mp he) h

/-- The `take_while` prefix the source collects is exactly the ordered
chunk sequence, each chunk parsed and optimized. -/
lemma kept_chunks_eq (hdr : List String) {C : ℕ} (hC : 0 < C)
    (rows : List (List String)) :
    (((List.range (rows.length + 1)).map (chunkStep hdr C rows)).takeWhile notSentinel) =
      (chunkList C rows).map
        (fun ch => Except.map optimize_chunk (parseChunk hdr ch)) := by
  have hkle : numChunks C rows.length ≤ rows.length := numChunks_le hC rows.length
  have hsent : (chunkAt C rows (numChunks C rows.length)).isEmpty = true := by
    rw [isEmpty_iff_nil]
    apply chunkAt_eq_nil
    by_contra hlt
    push_neg at hlt
    exact absurd ((lt_numChunks_iff hC _ rows.length).mpr hlt)
      (lt_irrefl (numChunks C rows.length))
  rw [takeWhile_map_range (numChunks C rows.length) (chunkStep hdr C rows)
    notSentinel (rows.length + 1) (by omega)
    (fun i hi => notSentinel_chunkStep (isEmpty_false_of_ne_nil
      (chunkAt_ne_nil hC ((lt_numChunks_iff hC i rows.length).mp hi))))
    (notSentinel_chunkStep_false hsent)]
  unfold chunkList
  rw [List.map_map]
  apply map_congr_mem
  intro i hi
  have hlt := List.mem_range.mp hi
  exact chunkStep_of_nonempty (isEmpty_false_of_ne_nil
    (chunkAt_ne_nil hC ((lt_numChunks_iff hC i rows.length).mp hlt)))

lemma sequenceE_error {ε α : Type} :
    ∀ {l : List (Except ε α)}, (∃ x ∈ l, ∃ e, x = .error e) →
      ∃ e, sequenceE l = .error e := by
  intro l
  induction l with
  | nil =>
    intro h
    rcases h with ⟨x, hx, _⟩
    exact absurd hx (List.not_mem_nil x)
  | cons r rs ih =>
    intro h
    cases r with
    | error e => exact ⟨e, rfl⟩
    | ok a =>
      rcases h with ⟨x, hx, e, he⟩
      rcases List.mem_cons.mp hx with h1 | h2
      · rw [h1] at he
        exact Except.noConfusion he
      · rcases ih ⟨x, h2, e, he⟩ with ⟨e2, he2⟩
        exact ⟨e2, by simp only [sequenceE, he2]⟩

/-- Claim C1, evaluated at the failing input: the whole-file path loads
`[1, 1, 300]` as a UInt16 column, the two partitions of size 2 narrow the
same logical column to UInt8 and UInt16 respectively, and the partitioned
load then fails at concatenation — no widening reconciliation exists, so
the two paths do not produce identical tables. -/
theorem partitioned_path_no_reconciliation :
    load_with_chunk 0 c1File =
      .ok [⟨"a", .uint16, [.int 1, .int 1, .int 300]⟩] ∧
    chunkStep ["a"] 2 c1File.rows 0 =
      .ok [⟨"a", .uint8, [.int 1, .int 1]⟩] ∧
    chunkStep ["a"] 2 c1File.rows 1 =
      .ok [⟨"a", .uint16, [.int 300]⟩] ∧
    load_with_chunk 2 c1File =
      .error (.processingError "cannot vstack: data types do not match") := by
  exact ⟨rfl, rfl, rfl, rfl⟩

/-- Claim C6: for a positive chunk size `C` the partitioned path works
through an ordered sequence of partitions in which partition `i` is
exactly rows `[i*C, min((i+1)*C, total))` — the concatenation of the
partitions is the original row sequence (no gaps, no overlaps, no
duplicated or skipped rows, last partition possibly shorter), every index
past the last partition is exhausted, and the sequence the source's
sentinel-terminated iteration collects is precisely these partitions,
parsed and optimized. -/
theorem partition_coverage (C : ℕ) (hdr : List String)
    (rows : List (List String)) (hC : 0 < C) :
    (chunkList C rows).flatten = rows ∧
    (∀ i, i < numChunks C rows.length →
      (chunkList C rows)[i]? = some ((rows.drop (i * C)).take C) ∧
      ((rows.drop (i * C)).take C).length = min ((i + 1) * C) rows.length - i * C) ∧
    (∀ i, numChunks C rows.length ≤ i → chunkAt C rows i = []) ∧
    ((List.range (rows.length + 1)).map (chunkStep hdr C rows)).takeWhile notSentinel =
      (chunkList C rows).map
        (fun ch => Except.map optimize_chunk (parseChunk hdr ch)) := by
  refine ⟨chunkList_join hC rows, ?_, ?_, kept_chunks_eq hdr hC rows⟩
  · intro i hi
    constructor
    · unfold chunkList
      rw [List.getElem?_map, List.getElem?_range hi]
      rfl
    · rw [List.length_take, List.length_drop]
      have he : (i + 1) * C = i * C + C := by ring
      omega
  · intro i hi
    apply chunkAt_eq_nil
    by_contra hlt
    push_neg at hlt
    have := (lt_numChunks_iff hC i rows.length).mpr hlt
    omega

/-- Witness for C6 at chunk size 2 over three rows. -/
theorem partition_coverage_witness :
    (chunkList 2 ([["1"], ["1"], ["300"]] : List (List String))).flatten =
      [["1"], ["1"], ["300"]] :=
  (partition_coverage 2 ["a"] [["1"], ["1"], ["300"]] (by decide)).1

/-- Claim C7: if any row of the file is malformed (more fields than the
header defines — the one row shape polars rejects; rows with fewer fields
are null-filled, not errors), the load — whole-file or partitioned, the
malformed row falling in whichever partition — returns an error; since
the result type carries either a single complete table or a single
error, no data from other partitions is ever returned. -/
theorem load_fail_fast (C : ℕ) (f : CsvFile)
    (hbad : ∃ r ∈ f.rows, f.header.length < r.length) :
    ∃ e, load_with_chunk C f = .error e := by
  unfold load_with_chunk
  split_ifs with hC0
  · rw [parseChunk_error hbad]
    exact ⟨_, rfl⟩
  · have hC : 0 < C := Nat.pos_of_ne_zero hC0
    rcases hbad with ⟨r, hr, hne⟩
    have hr2 : r ∈ (chunkList C f.rows).flatten := by
      rw [chunkList_join hC]
      exact hr
    rcases List.mem_flatten.mp hr2 with ⟨ch, hch, hrch⟩
    have herr : Except.map optimize_chunk (parseChunk f.header ch) =
        .error (.processingError "found more fields than defined in csv schema") := by
      rw [parseChunk_error ⟨r, hrch, hne⟩]
      rfl
    have hmem : Except.map optimize_chunk (parseChunk f.header ch) ∈
        (chunkList C f.rows).map
          (fun c2 => Except.map optimize_chunk (parseChunk f.header c2)) :=
      List.mem_map_of_mem _ hch
    rcases sequenceE_error ⟨_, hmem, _, herr⟩ with ⟨e, he⟩
    refine ⟨e, ?_⟩
    unfold load_chunked
    rw [kept_chunks_eq f.header hC f.rows, he]

/-- Witness for C7: a second row carrying an extra field fails a
two-chunk load. -/
theorem load_fail_fast_witness :
    ∃ e, load_with_chunk 2 malformedFile = .error e :=
  load_fail_fast 2 malformedFile ⟨["3", "4", "5"], by decide, by decide⟩

end DataVolt
